import Mathlib

/-!
# goaction: change detection and commit/push synchronisation

A shallow embedding of `actionutil/git.go` (`GitConfig`, `GitDiff`,
`GitCommitPush`, `git`) and of the tail of `cmd/goaction/main.go`
(`gitDiff`, `push`, `pr`, and `main` from the call of `gitDiff` onwards).

Every external process call goes through `git`.  The environment is an
oracle that answers each command as a function of everything that was
issued before it; the program threads the log of issued commands (with their
outcomes) as explicit state, so the order and number of commands are
observable in theorems.
-/

namespace Goaction

/-! ## Data model -/

/-- Go `error` value: `none` is `nil`, `some m` is an error whose text is `m`. -/
abbrev GoError := Option String

/-- Outcome of one child process: what it wrote to standard output and the
error of the run (`nil` when it exited with status zero). -/
structure Out where
  stdout : String
  err : GoError
deriving DecidableEq, Repr

/-- One externally visible call, with the outcome it had. -/
inductive Event where
  | git (args : List String) (out : Out)
  | prComment (token user body : String) (err : GoError)
deriving DecidableEq, Repr

/-- Calls issued so far, oldest first. -/
abbrev Log := List Event

/-- The environment: the outcome of `git <args>` and of posting a pull
request comment, each depending on the whole history of earlier calls. -/
structure World where
  exec : Log → List String → Out
  comment : Log → String → String → String → GoError

/-- Facts of the CI context read by the program (`goaction.Branch()`,
`goaction.IsPush()`, `goaction.IsPR()`, `goaction.CI`) and the two
environment inputs of `main.go` (`email`, `githubToken`). -/
structure Ctx where
  branch : String
  isPush : Bool
  isPR : Bool
  ci : Bool
  email : String
  githubToken : String

/-! ## `actionutil/git.go` -/

/-- `git(subcmd, args...)`: prepend the subcommand and run
`git <subcmd> <args...>`; the call is appended to the log. -/
def git (w : World) (subcmd : String) (args : List String) (h : Log) : Out × Log :=
  let args := subcmd :: args
  let o := w.exec h args
  (o, h ++ [Event.git args o])

/-- `Stream.ToStdout()` of the `script` library: the output is dumped, only
the error is returned. -/
def ToStdout (r : Out × Log) : GoError × Log := (r.1.err, r.2)

/-- `Stream.ToString()` of the `script` library: the whole output together
with the error. -/
def ToString (r : Out × Log) : (String × GoError) × Log := ((r.1.stdout, r.1.err), r.2)

/-- Split a text into lines; every line keeps its terminating newline, a last
line without newline is kept as it is. -/
def splitLines : List Char → List (List Char)
  | [] => []
  | c :: cs =>
    if c = '\n' then [c] :: splitLines cs
    else
      match splitLines cs with
      | [] => [[c]]
      | l :: ls => (c :: l) :: ls

/-- Modelled from the spec: `Stream.Tail` of the external `script` library
(not part of the sources).  `Tail(n)` with `n < 0` passes on every line but
the first `|n|` ("the diff header's first lines trimmed, i.e. the first 5
lines"); with `n ≥ 0` it passes on the last `n` lines. -/
def Tail (n : Int) (r : Out × Log) : Out × Log :=
  let ls := splitLines r.1.stdout.data
  let kept := if n < 0 then ls.drop (-n).toNat else ls.drop (ls.length - n.toNat)
  ({ r.1 with stdout := String.mk kept.flatten }, r.2)

/-- `GitConfig(name, email)`. -/
def GitConfig (w : World) (name email : String) (h : Log) : GoError × Log :=
  match ToStdout (git w "config" ["user.name", name] h) with
  | (some e, h1) => (some e, h1)
  | (none, h1) => ToStdout (git w "config" ["user.email", email] h1)

/-- `GitDiff(path)`: stage the path, diff it against HEAD without the five
header lines, and reset the path in a deferred call whose result is dropped. -/
def GitDiff (w : World) (path : String) (h : Log) : (String × GoError) × Log :=
  let (err, h1) := ToStdout (git w "add" [path] h)
  let (ret, h2) :=
    match err with
    | some e => (("", some ("git add for " ++ path ++ ": " ++ e)), h1)
    | none => ToString (Tail (-5) (git w "diff" ["--staged", "--no-color", path] h1))
  -- deferred: `git("reset", path).ToStdout()`, result ignored
  let (_, h3) := ToStdout (git w "reset" [path] h2)
  (ret, h3)

/-- Local constant `maxRetries := 3` of `GitCommitPush`. -/
def maxRetries : Nat := 3

/-- The `for { ... }` loop of `GitCommitPush`.  One unit of fuel is one
iteration; the result `none` means the loop is still running when the fuel
is used up.  `retry` is the loop counter, a Go `int` that is only compared
with `maxRetries`; it is a natural number here, as it cannot overflow before
2^31 iterations. -/
def pushLoop (w : World) (branch : String) : Nat → Nat → Log → Option GoError × Log
  | 0, _, h => (none, h)
  | fuel + 1, retry, h =>
    let (err, h1) := ToStdout (git w "push" ["origin", "HEAD:" ++ branch] h)
    match err, decide (retry > maxRetries) with
    | some e, true =>
      (some (some ("push failed " ++ toString maxRetries ++ " times: " ++ e)), h1)
    | _, _ =>
      let retry := retry + 1
      let (err, h2) := ToStdout (git w "pull" ["--rebase", "--autostash", "origin", branch] h1)
      match err with
      | some e => (some (some ("git pull rebase: " ++ e)), h2)
      | none => pushLoop w branch fuel retry h2

/-- `GitCommitPush(paths, message)`; `branch` is `goaction.Branch()`. -/
def GitCommitPush (w : World) (branch : String) (paths : List String) (message : String)
    (fuel : Nat) (h : Log) : Option GoError × Log :=
  match ToStdout (git w "reset" [] h) with
  | (some e, h1) => (some (some ("git reset: " ++ e)), h1)
  | (none, h1) =>
    match ToStdout (git w "add" paths h1) with
    | (some e, h2) => (some (some ("git add: " ++ e)), h2)
    | (none, h2) =>
      match ToStdout (git w "commit" ["-m", message] h2) with
      | (some e, h3) => (some (some ("git commit: " ++ e)), h3)
      | (none, h3) => pushLoop w branch fuel 1 h3

/-! ## `cmd/goaction/main.go` -/

/-- Constant `action`. -/
def action : String := "action.yml"

/-- Constant `dockerfile`. -/
def dockerfile : String := "Dockerfile"

/-- How a call of a function of `main.go` ends: it returns, it ends the
process (`log.Fatal` exits with status 1), or it is still running when the
fuel is used up. -/
inductive Status where
  | returned
  | exit (code : Nat)
  | running
deriving DecidableEq, Repr

/-- The `for _, path := range ...` loop of `gitDiff`; `diff` is the content
of the `strings.Builder`.  `Except.error` is `log.Fatal(err)`. -/
def gitDiffLoop (w : World) : List String → String → Log → Except String String × Log
  | [], diff, h => (Except.ok diff, h)
  | path :: rest, diff, h =>
    match GitDiff w path h with
    | ((_, some e), h1) => (Except.error e, h1)
    | ((d, none), h1) =>
      if d ≠ "" then
        let diff := diff ++ ("Path `" ++ path ++ "`:\n\n")
        let diff := diff ++ ("```diff\n" ++ d ++ "\n```\n\n")
        gitDiffLoop w rest diff h1
      else gitDiffLoop w rest diff h1

/-- `gitDiff()`. -/
def gitDiff (w : World) (h : Log) : Except String String × Log :=
  gitDiffLoop w [action, dockerfile] "" h

/-- `push()`: commit and push the two generated files. -/
def push (w : World) (ctx : Ctx) (fuel : Nat) (h : Log) : Status × Log :=
  match GitCommitPush w ctx.branch [action, dockerfile] "Update action files" fuel h with
  | (none, h1) => (Status.running, h1)
  | (some (some _), h1) => (Status.exit 1, h1)
  | (some none, h1) => (Status.returned, h1)

/-- Modelled from the spec: `actionutil.PRComment(ctx, token, user, body)` is
not among the sources.  It is the spec's `postComment(credential,
identity-label, body) -> error`: the call is handed to the environment and
recorded in the log. -/
def PRComment (w : World) (token user body : String) (h : Log) : GoError × Log :=
  let err := w.comment h token user body
  (err, h ++ [Event.prComment token user body err])

/-- `pr(diff)`: post the diff as a pull request comment. -/
def pr (w : World) (ctx : Ctx) (diff : String) (h : Log) : Status × Log :=
  if ctx.githubToken = "" then (Status.returned, h)
  else
    let body := "[Goaction](https://github.com/posener/goaction) will apply the following changes after PR is merged.\n\n" ++ diff
    let body :=
      if diff = "" then
        "[Goaction](https://github.com/posener/goaction) detected no required changes to Github action files."
      else body
    match PRComment w ctx.githubToken "goaction" body h with
    | (some _, h1) => (Status.exit 1, h1)
    | (none, h1) => (Status.returned, h1)

/-- The `switch` at the end of `main`. -/
def dispatch (w : World) (ctx : Ctx) (diff : String) (fuel : Nat) (h : Log) : Status × Log :=
  if ctx.isPush then
    if !ctx.ci then (Status.returned, h)
    else push w ctx fuel h
  else if ctx.isPR then pr w ctx diff h
  else (Status.returned, h)

/-- The exit status of the process when `main` ends in the given way:
returning from `main` is status 0. -/
def exitStatus : Status → Option Nat
  | Status.returned => some 0
  | Status.exit c => some c
  | Status.running => none

/-- `main()` from `diff := gitDiff()` to its end (the generation of the two
files before that point is not modelled).  The result is the exit status of
the process, `none` while it is still running. -/
def main (w : World) (ctx : Ctx) (fuel : Nat) (h : Log) : Option Nat × Log :=
  match gitDiff w h with
  | (Except.error _, h1) => (some 1, h1)
  | (Except.ok diff, h1) =>
    if diff = "" then (some 0, h1)
    else
      match GitConfig w "goaction" ctx.email h1 with
      | (some _, h2) => (some 1, h2)
      | (none, h2) =>
        let (st, h3) := dispatch w ctx diff fuel h2
        (exitStatus st, h3)

/-! ## Observations on logs -/

/-- Is the event a git command? -/
def isGit : Event → Bool
  | Event.git _ _ => true
  | _ => false

/-- Is the event a `git push ...` command? -/
def isPushCmd : Event → Bool
  | Event.git ("push" :: _) _ => true
  | _ => false

/-- Is the event a `git pull ...` command? -/
def isPullCmd : Event → Bool
  | Event.git ("pull" :: _) _ => true
  | _ => false

/-- Is the event a `git reset ...` command? -/
def isResetCmd : Event → Bool
  | Event.git ("reset" :: _) _ => true
  | _ => false

/-- Is the event a pull request comment? -/
def isComment : Event → Bool
  | Event.prComment _ _ _ _ => true
  | _ => false

/-- Is the event one of the three commands of `GitDiff`? -/
def isDiffStep : Event → Bool
  | Event.git ["add", _] _ => true
  | Event.git ["diff", "--staged", "--no-color", _] _ => true
  | Event.git ["reset", _] _ => true
  | _ => false

/-- The git commands of a log, each as its argument list, in order. -/
def issued (l : Log) : List (List String) :=
  l.filterMap fun ev =>
    match ev with
    | Event.git args _ => some args
    | Event.prComment _ _ _ _ => none

/-- Was `GitConfig` called?  Its commands are the only `git config`. -/
def invokedGitConfig (l : Log) : Bool :=
  l.any fun ev =>
    match ev with
    | Event.git ("config" :: _) _ => true
    | _ => false

/-- Was `GitCommitPush` called?  Its first command, always issued, is the
only `git reset` without a path. -/
def invokedGitCommitPush (l : Log) : Bool :=
  l.any fun ev =>
    match ev with
    | Event.git ["reset"] _ => true
    | _ => false

/-- Was `PRComment` called? -/
def invokedPRComment (l : Log) : Bool := l.any isComment

/-- In a run, a failed `git pull` is the last call and decides the result:
whenever the new calls split around a pull with error `e`, nothing follows
it and the result is the wrapped rebase error. -/
def FinalPull (res : Option GoError) (new : Log) : Prop :=
  ∀ (pre post : Log) (args : List String) (o : Out) (e : String),
    new = pre ++ Event.git ("pull" :: args) o :: post → o.err = some e →
      post = [] ∧ res = some (some ("git pull rebase: " ++ e))

/-! ## Intermediate logs and outcomes -/

/-- The log after the `git reset` of `GitCommitPush`. -/
def logReset (w : World) (h : Log) : Log :=
  h ++ [Event.git ["reset"] (w.exec h ["reset"])]

/-- The log after the `git add <paths>` of `GitCommitPush`. -/
def logAdd (w : World) (paths : List String) (h : Log) : Log :=
  logReset w h ++ [Event.git ("add" :: paths) (w.exec (logReset w h) ("add" :: paths))]

/-- The log after the `git commit -m <message>` of `GitCommitPush`. -/
def logCommit (w : World) (paths : List String) (message : String) (h : Log) : Log :=
  logAdd w paths h ++
    [Event.git ["commit", "-m", message] (w.exec (logAdd w paths h) ["commit", "-m", message])]

/-- The log after one more `git push origin HEAD:<branch>`. -/
def logPush (w : World) (branch : String) (h : Log) : Log :=
  h ++ [Event.git ["push", "origin", "HEAD:" ++ branch]
    (w.exec h ["push", "origin", "HEAD:" ++ branch])]

/-- The log after one more `git pull --rebase --autostash origin <branch>`. -/
def logPull (w : World) (branch : String) (h : Log) : Log :=
  h ++ [Event.git ["pull", "--rebase", "--autostash", "origin", branch]
    (w.exec h ["pull", "--rebase", "--autostash", "origin", branch])]

/-- The log after `k` more rounds of push followed by pull. -/
def logRounds (w : World) (branch : String) : Nat → Log → Log
  | 0, h => h
  | k + 1, h => logPull w branch (logPush w branch (logRounds w branch k h))

/-- The outcome of the `git add <path>` of `GitDiff`. -/
def addOut (w : World) (path : String) (h : Log) : Out :=
  w.exec h ["add", path]

/-- The outcome of the `git diff --staged --no-color <path>` of `GitDiff`,
issued after the add. -/
def diffOut (w : World) (path : String) (h : Log) : Out :=
  w.exec (h ++ [Event.git ["add", path] (addOut w path h)]) ["diff", "--staged", "--no-color", path]

/-- The log after `gitDiff` and `GitConfig` in `main`. -/
def configured (w : World) (ctx : Ctx) (h : Log) : Log :=
  (GitConfig w "goaction" ctx.email (gitDiff w h).2).2

/-- The body of the comment posted by `pr` for a non-empty diff. -/
def commentBody (diff : String) : String :=
  "[Goaction](https://github.com/posener/goaction) will apply the following changes after PR is merged.\n\n" ++ diff

/-- The labelled block of one path in the aggregate report: nothing for an
empty diff, else the label line and the diff in a fenced block. -/
def block (path d : String) : String :=
  if d = "" then "" else "Path `" ++ path ++ "`:\n\n" ++ ("```diff\n" ++ d ++ "\n```\n\n")

/-! ## Scripted environments -/

/-- A successful run with empty output. -/
def okOut : Out := ⟨"", none⟩

/-- A failed run with the given error text. -/
def failOut (e : String) : Out := ⟨"", some e⟩

/-- Outcomes of the commands of one `GitCommitPush` call: those of the three
preparatory commands, of the k-th push attempt and of the k-th
`pull --rebase` (both counted from 0). -/
structure Scenario where
  reset : Out
  add : Out
  commit : Out
  push : Nat → Out
  pull : Nat → Out

/-- The environment that plays a scenario: a push or pull is answered
according to how many pushes or pulls were issued before it. -/
def Scenario.world (sc : Scenario) : World where
  exec h args :=
    match args with
    | "reset" :: _ => sc.reset
    | "add" :: _ => sc.add
    | "commit" :: _ => sc.commit
    | "push" :: _ => sc.push (h.countP isPushCmd)
    | "pull" :: _ => sc.pull (h.countP isPullCmd)
    | _ => okOut
  comment _ _ _ _ := none

/-- Every command succeeds. -/
def allOk : Scenario := ⟨okOut, okOut, okOut, fun _ => okOut, fun _ => okOut⟩

/-- Persistent contention: every push is rejected, every rebase succeeds. -/
def contention : Scenario :=
  ⟨okOut, okOut, okOut, fun _ => failOut "rejected", fun _ => okOut⟩

/-- One rejected push, one good rebase, a second rejected push, then a
rebase that fails. -/
def rebaseFails : Scenario :=
  ⟨okOut, okOut, okOut, fun _ => failOut "rejected",
    fun k => if k = 0 then okOut else failOut "conflict"⟩

/-- The preparatory command `reset`, `add` or `commit` (chosen by `k = 0, 1, 2`)
fails, everything else succeeds. -/
def prepFails (k : Nat) : Scenario :=
  ⟨if k = 0 then failOut "no repository" else okOut,
    if k = 1 then failOut "no such path" else okOut,
    if k = 2 then failOut "nothing to commit" else okOut,
    fun _ => okOut, fun _ => okOut⟩

/-- An environment for `GitDiff`: add succeeds, the staged diff of any path is
a five-line header followed by one changed line, and reset ends as given. -/
def diffWorld (resetOut : Out) : World where
  exec _ args :=
    match args with
    | "diff" :: _ =>
      ⟨"diff --git a/f b/f\nindex 1a..2b 100644\n--- a/f\n+++ b/f\n@@ -1 +1 @@\n-old\n+new\n", none⟩
    | "reset" :: _ => resetOut
    | _ => okOut
  comment _ _ _ _ := none

/-- Only `action.yml` differs from HEAD: its staged diff is a five-line
header and one changed line, every other command succeeds silently. -/
def actionChanged : World where
  exec _ args :=
    match args with
    | ["diff", _, _, "action.yml"] =>
      ⟨"diff --git a/f b/f\nindex 1a..2b 100644\n--- a/f\n+++ b/f\n@@ -1 +1 @@\n-old\n+new\n", none⟩
    | _ => okOut
  comment _ _ _ _ := none

/-- A pull request run inside CI with a token configured. -/
def reviewCtx : Ctx := ⟨"main", false, true, true, "bot@example.com", "token"⟩

/-- A push run inside CI without a token. -/
def pushCtx : Ctx := ⟨"main", true, false, true, "bot@example.com", ""⟩

/-! # Theorems

## Lemmas on the push loop -/

theorem pushLoop_ne_nil (w : World) (branch : String) :
    ∀ (fuel retry : Nat) (h : Log), (pushLoop w branch fuel retry h).1 ≠ some none := by
  intro fuel
  induction fuel with
  | zero => intro retry h; simp [pushLoop]
  | succ n ih =>
    intro retry h
    unfold pushLoop
    simp only [ToStdout, git]
    split
    · simp
    · split
      · simp
      · exact ih _ _

theorem pushLoop_allOk (branch : String) :
    ∀ (fuel retry : Nat) (h : Log),
      (pushLoop allOk.world branch fuel retry h).1 = none ∧
      (pushLoop allOk.world branch fuel retry h).2.countP isPushCmd = h.countP isPushCmd + fuel ∧
      (pushLoop allOk.world branch fuel retry h).2.countP isPullCmd = h.countP isPullCmd + fuel := by
  intro fuel
  induction fuel with
  | zero => intro retry h; simp [pushLoop]
  | succ n ih =>
    intro retry h
    unfold pushLoop
    simp only [ToStdout, git]
    have e1 : (allOk.world.exec h ["push", "origin", "HEAD:" ++ branch]).err = none := rfl
    have e2 : (allOk.world.exec
        (h ++ [Event.git ["push", "origin", "HEAD:" ++ branch]
          (allOk.world.exec h ["push", "origin", "HEAD:" ++ branch])])
        ["pull", "--rebase", "--autostash", "origin", branch]).err = none := rfl
    rw [e1, e2]
    simp only []
    obtain ⟨h1, h2, h3⟩ := ih (retry + 1) (h ++ [Event.git ["push", "origin", "HEAD:" ++ branch]
          (allOk.world.exec h ["push", "origin", "HEAD:" ++ branch])] ++
          [Event.git ["pull", "--rebase", "--autostash", "origin", branch] (allOk.world.exec
        (h ++ [Event.git ["push", "origin", "HEAD:" ++ branch]
          (allOk.world.exec h ["push", "origin", "HEAD:" ++ branch])])
        ["pull", "--rebase", "--autostash", "origin", branch])])
    refine ⟨h1, ?_, ?_⟩
    · rw [h2]; simp [List.countP_append, isPushCmd, isPullCmd]; omega
    · rw [h3]; simp [List.countP_append, isPushCmd, isPullCmd]; omega

theorem FinalPull_nil (res : Option GoError) : FinalPull res [] := by
  intro pre post args o e hsplit _
  simp at hsplit

theorem FinalPull_cons (res : Option GoError) (x : Event) (new : Log)
    (hx : ∀ (args : List String) (o : Out) (e : String),
      x = Event.git ("pull" :: args) o → o.err = some e → False)
    (hnew : FinalPull res new) : FinalPull res (x :: new) := by
  intro pre post args o e hsplit herr
  cases pre with
  | nil =>
    simp only [List.nil_append, List.cons.injEq] at hsplit
    exact (hx args o e hsplit.1 herr).elim
  | cons y ys =>
    simp only [List.cons_append, List.cons.injEq] at hsplit
    exact hnew ys post args o e hsplit.2 herr

theorem FinalPull_single (args : List String) (o : Out) (e : String) (herr : o.err = some e) :
    FinalPull (some (some ("git pull rebase: " ++ e))) [Event.git ("pull" :: args) o] := by
  intro pre post args2 o2 e2 hsplit herr2
  cases pre with
  | nil =>
    simp only [List.nil_append, List.cons.injEq, Event.git.injEq] at hsplit
    obtain ⟨⟨_, ho⟩, hpost⟩ := hsplit
    subst ho
    rw [herr] at herr2
    simp only [Option.some.injEq] at herr2
    subst herr2
    exact ⟨hpost.symm, rfl⟩
  | cons y ys =>
    simp only [List.cons_append, List.cons.injEq] at hsplit
    have := hsplit.2
    simp at this

/-- The loop only adds pushes and pulls to the log, and a failed pull ends it. -/
theorem pushLoop_spec (w : World) (branch : String) :
    ∀ (fuel retry : Nat) (h : Log), ∃ new : Log,
      (pushLoop w branch fuel retry h).2 = h ++ new ∧
      (∀ ev ∈ new, isPushCmd ev = true ∨ isPullCmd ev = true) ∧
      FinalPull (pushLoop w branch fuel retry h).1 new := by
  intro fuel
  induction fuel with
  | zero =>
    intro retry h
    exact ⟨[], by simp [pushLoop], by simp, FinalPull_nil _⟩
  | succ n ih =>
    intro retry h
    unfold pushLoop
    simp only [ToStdout, git]
    generalize w.exec h ["push", "origin", "HEAD:" ++ branch] = op
    generalize w.exec (h ++ [Event.git ["push", "origin", "HEAD:" ++ branch] op])
      ["pull", "--rebase", "--autostash", "origin", branch] = oq
    have hpush : ∀ (args : List String) (o : Out) (e : String),
        Event.git ["push", "origin", "HEAD:" ++ branch] op = Event.git ("pull" :: args) o →
        o.err = some e → False := by
      intro args o e heq _
      simp at heq
    split
    · refine ⟨[Event.git ["push", "origin", "HEAD:" ++ branch] op], rfl, ?_,
        FinalPull_cons _ _ _ hpush (FinalPull_nil _)⟩
      intro ev hev
      simp only [List.mem_singleton] at hev
      subst hev
      exact Or.inl rfl
    · split
      · rename_i e he
        refine ⟨[Event.git ["push", "origin", "HEAD:" ++ branch] op,
            Event.git ["pull", "--rebase", "--autostash", "origin", branch] oq], by simp, ?_,
          FinalPull_cons _ _ _ hpush (FinalPull_single _ _ e he)⟩
        intro ev hev
        simp only [List.mem_cons, List.mem_singleton, List.not_mem_nil, or_false] at hev
        rcases hev with hev | hev
        · subst hev; exact Or.inl rfl
        · subst hev; exact Or.inr rfl
      · rename_i he
        obtain ⟨new, hlog, hcmds, hfin⟩ := ih (retry + 1)
          (h ++ [Event.git ["push", "origin", "HEAD:" ++ branch] op] ++
            [Event.git ["pull", "--rebase", "--autostash", "origin", branch] oq])
        refine ⟨Event.git ["push", "origin", "HEAD:" ++ branch] op ::
          Event.git ["pull", "--rebase", "--autostash", "origin", branch] oq :: new, ?_, ?_, ?_⟩
        · rw [hlog]; simp
        · intro ev hev
          simp only [List.mem_cons] at hev
          rcases hev with hev | hev | hev
          · subst hev; exact Or.inl rfl
          · subst hev; exact Or.inr rfl
          · exact hcmds ev hev
        · refine FinalPull_cons _ _ _ hpush (FinalPull_cons _ _ _ ?_ hfin)
          intro args o e heq herr
          simp only [Event.git.injEq] at heq
          rw [← heq.2, he] at herr
          simp at herr

theorem pushLoop_retry (w : World) (branch : String) (fuel retry : Nat) (h : Log)
    (hretry : retry ≤ maxRetries)
    (hpull : (w.exec (logPush w branch h)
      ["pull", "--rebase", "--autostash", "origin", branch]).err = none) :
    pushLoop w branch (fuel + 1) retry h =
      pushLoop w branch fuel (retry + 1) (logPull w branch (logPush w branch h)) := by
  have hdec : decide (retry > maxRetries) = false := by simp; omega
  simp only [logPush] at hpull
  cases hp : (w.exec h ["push", "origin", "HEAD:" ++ branch]).err <;>
    simp only [pushLoop, ToStdout, git, hdec, hp, hpull, logPull, logPush]

theorem pushLoop_exhausted (w : World) (branch : String) (fuel retry : Nat) (h : Log)
    (e : String) (hretry : maxRetries < retry)
    (hpush : (w.exec h ["push", "origin", "HEAD:" ++ branch]).err = some e) :
    pushLoop w branch (fuel + 1) retry h =
      (some (some ("push failed 3 times: " ++ e)), logPush w branch h) := by
  have hdec : decide (retry > maxRetries) = true := by simp; omega
  have hmsg : "push failed " ++ toString maxRetries ++ " times: " = "push failed 3 times: " := by
    decide
  simp only [pushLoop, ToStdout, git, hdec, hpush, logPush, hmsg]

/-- Three rounds in which every rebase succeeds, then a rejected fourth push:
the loop ends there with the exhaustion error. -/
theorem pushLoop_fourth_rejection (w : World) (branch : String) (fuel : Nat) (h : Log)
    (e : String)
    (hpull : ∀ k, k < 3 → (w.exec (logPush w branch (logRounds w branch k h))
      ["pull", "--rebase", "--autostash", "origin", branch]).err = none)
    (hpush : (w.exec (logRounds w branch 3 h) ["push", "origin", "HEAD:" ++ branch]).err
      = some e) :
    pushLoop w branch (fuel + 4) 1 h =
      (some (some ("push failed 3 times: " ++ e)), logPush w branch (logRounds w branch 3 h)) := by
  exact (pushLoop_retry w branch (fuel + 3) 1 h (by decide) (hpull 0 (by decide))).trans
    ((pushLoop_retry w branch (fuel + 2) 2 _ (by decide) (hpull 1 (by decide))).trans
      ((pushLoop_retry w branch (fuel + 1) 3 _ (by decide) (hpull 2 (by decide))).trans
        (pushLoop_exhausted w branch fuel 4 _ e (by decide) hpush)))

/-- While the rebases succeed, the first three rounds never end the loop. -/
theorem pushLoop_running (w : World) (branch : String) (fuel : Nat) (h : Log)
    (hfuel : fuel < 4)
    (hpull : ∀ k, k < 3 → (w.exec (logPush w branch (logRounds w branch k h))
      ["pull", "--rebase", "--autostash", "origin", branch]).err = none) :
    pushLoop w branch fuel 1 h = (none, logRounds w branch fuel h) := by
  have h0 := hpull 0 (by decide)
  have h1 := hpull 1 (by decide)
  have h2 := hpull 2 (by decide)
  interval_cases fuel
  · rfl
  · exact pushLoop_retry w branch 0 1 h (by decide) h0
  · exact (pushLoop_retry w branch 1 1 h (by decide) h0).trans
      (pushLoop_retry w branch 0 2 _ (by decide) h1)
  · exact (pushLoop_retry w branch 2 1 h (by decide) h0).trans
      ((pushLoop_retry w branch 1 2 _ (by decide) h1).trans
        (pushLoop_retry w branch 0 3 _ (by decide) h2))

theorem countP_logPush (w : World) (branch : String) (h : Log) :
    (logPush w branch h).countP isPushCmd = h.countP isPushCmd + 1 ∧
    (logPush w branch h).countP isPullCmd = h.countP isPullCmd := by
  simp [logPush, List.countP_append, isPushCmd, isPullCmd]

theorem countP_logRounds (w : World) (branch : String) (k : Nat) (h : Log) :
    (logRounds w branch k h).countP isPushCmd = h.countP isPushCmd + k ∧
    (logRounds w branch k h).countP isPullCmd = h.countP isPullCmd + k := by
  induction k with
  | zero => simp [logRounds]
  | succ n ih =>
    obtain ⟨h1, h2⟩ := ih
    simp only [logRounds, logPull, logPush, List.countP_append, h1, h2]
    simp [isPushCmd, isPullCmd]
    omega

theorem countP_logCommit (w : World) (paths : List String) (message : String) (h : Log) :
    (logCommit w paths message h).countP isPushCmd = h.countP isPushCmd ∧
    (logCommit w paths message h).countP isPullCmd = h.countP isPullCmd := by
  simp [logCommit, logAdd, logReset, List.countP_append, isPushCmd, isPullCmd]

theorem Scenario.exec_push (sc : Scenario) (h : Log) (args : List String) :
    sc.world.exec h ("push" :: args) = sc.push (h.countP isPushCmd) := rfl

theorem Scenario.exec_pull (sc : Scenario) (h : Log) (args : List String) :
    sc.world.exec h ("pull" :: args) = sc.pull (h.countP isPullCmd) := rfl

/-! ## Lemmas on `GitCommitPush` -/

theorem GitCommitPush_reset_fails (w : World) (branch : String) (paths : List String)
    (message : String) (fuel : Nat) (h : Log) (e : String)
    (h1 : (w.exec h ["reset"]).err = some e) :
    GitCommitPush w branch paths message fuel h =
      (some (some ("git reset: " ++ e)), logReset w h) := by
  simp [GitCommitPush, ToStdout, git, h1, logReset]

theorem GitCommitPush_add_fails (w : World) (branch : String) (paths : List String)
    (message : String) (fuel : Nat) (h : Log) (e : String)
    (h1 : (w.exec h ["reset"]).err = none)
    (h2 : (w.exec (logReset w h) ("add" :: paths)).err = some e) :
    GitCommitPush w branch paths message fuel h =
      (some (some ("git add: " ++ e)), logAdd w paths h) := by
  simp only [logReset] at h2
  simp [GitCommitPush, ToStdout, git, h1, h2, logAdd, logReset]

theorem GitCommitPush_commit_fails (w : World) (branch : String) (paths : List String)
    (message : String) (fuel : Nat) (h : Log) (e : String)
    (h1 : (w.exec h ["reset"]).err = none)
    (h2 : (w.exec (logReset w h) ("add" :: paths)).err = none)
    (h3 : (w.exec (logAdd w paths h) ["commit", "-m", message]).err = some e) :
    GitCommitPush w branch paths message fuel h =
      (some (some ("git commit: " ++ e)), logCommit w paths message h) := by
  simp only [logAdd, logReset, List.append_assoc, List.singleton_append] at h2 h3
  simp [GitCommitPush, ToStdout, git, h1, h2, h3, logCommit, logAdd, logReset]

theorem GitCommitPush_prepared (w : World) (branch : String) (paths : List String)
    (message : String) (fuel : Nat) (h : Log)
    (h1 : (w.exec h ["reset"]).err = none)
    (h2 : (w.exec (logReset w h) ("add" :: paths)).err = none)
    (h3 : (w.exec (logAdd w paths h) ["commit", "-m", message]).err = none) :
    GitCommitPush w branch paths message fuel h =
      pushLoop w branch fuel 1 (logCommit w paths message h) := by
  simp only [logAdd, logReset, List.append_assoc, List.singleton_append] at h2 h3
  simp [GitCommitPush, ToStdout, git, h1, h2, h3, logCommit, logAdd, logReset]

/-- What every run of `GitCommitPush` adds to the log: git commands only, the
first of them `git reset`, and a failed pull only as the last one. -/
theorem GitCommitPush_spec (w : World) (branch : String) (paths : List String)
    (message : String) (fuel : Nat) (h : Log) : ∃ new : Log,
      (GitCommitPush w branch paths message fuel h).2 =
        h ++ Event.git ["reset"] (w.exec h ["reset"]) :: new ∧
      (∀ ev ∈ new, isGit ev = true) ∧
      FinalPull (GitCommitPush w branch paths message fuel h).1
        (Event.git ["reset"] (w.exec h ["reset"]) :: new) := by
  have hreset : ∀ (o : Out) (args : List String) (o2 : Out) (e : String),
      Event.git ["reset"] o = Event.git ("pull" :: args) o2 → o2.err = some e → False := by
    intro o args o2 e heq _
    simp at heq
  have hadd : ∀ (o : Out) (args : List String) (o2 : Out) (e : String),
      Event.git ("add" :: paths) o = Event.git ("pull" :: args) o2 → o2.err = some e → False := by
    intro o args o2 e heq _
    simp at heq
  have hcommit : ∀ (o : Out) (args : List String) (o2 : Out) (e : String),
      Event.git ["commit", "-m", message] o = Event.git ("pull" :: args) o2 →
        o2.err = some e → False := by
    intro o args o2 e heq _
    simp at heq
  cases h1 : (w.exec h ["reset"]).err with
  | some e =>
    rw [GitCommitPush_reset_fails w branch paths message fuel h e h1]
    exact ⟨[], rfl, by simp, FinalPull_cons _ _ _ (hreset _) (FinalPull_nil _)⟩
  | none =>
    cases h2 : (w.exec (logReset w h) ("add" :: paths)).err with
    | some e =>
      rw [GitCommitPush_add_fails w branch paths message fuel h e h1 h2]
      refine ⟨[Event.git ("add" :: paths) (w.exec (logReset w h) ("add" :: paths))], ?_, ?_,
        FinalPull_cons _ _ _ (hreset _) (FinalPull_cons _ _ _ (hadd _) (FinalPull_nil _))⟩
      · simp [logAdd, logReset]
      · simp [isGit]
    | none =>
      cases h3 : (w.exec (logAdd w paths h) ["commit", "-m", message]).err with
      | some e =>
        rw [GitCommitPush_commit_fails w branch paths message fuel h e h1 h2 h3]
        refine ⟨[Event.git ("add" :: paths) (w.exec (logReset w h) ("add" :: paths)),
            Event.git ["commit", "-m", message]
              (w.exec (logAdd w paths h) ["commit", "-m", message])], ?_, ?_,
          FinalPull_cons _ _ _ (hreset _) (FinalPull_cons _ _ _ (hadd _)
            (FinalPull_cons _ _ _ (hcommit _) (FinalPull_nil _)))⟩
        · simp [logCommit, logAdd, logReset]
        · simp [isGit]
      | none =>
        rw [GitCommitPush_prepared w branch paths message fuel h h1 h2 h3]
        obtain ⟨new, hlog, hcmds, hfin⟩ :=
          pushLoop_spec w branch fuel 1 (logCommit w paths message h)
        refine ⟨Event.git ("add" :: paths) (w.exec (logReset w h) ("add" :: paths)) ::
            Event.git ["commit", "-m", message]
              (w.exec (logAdd w paths h) ["commit", "-m", message]) :: new, ?_, ?_, ?_⟩
        · rw [hlog]; simp [logCommit, logAdd, logReset]
        · intro ev hev
          simp only [List.mem_cons] at hev
          rcases hev with hev | hev | hev
          · subst hev; rfl
          · subst hev; rfl
          · rcases hcmds ev hev with hp | hp
            · cases ev with
              | git a o => rfl
              | prComment t u b e => simp [isPushCmd] at hp
            · cases ev with
              | git a o => rfl
              | prComment t u b e => simp [isPullCmd] at hp
        · exact FinalPull_cons _ _ _ (hreset _) (FinalPull_cons _ _ _ (hadd _)
            (FinalPull_cons _ _ _ (hcommit _) hfin))

/-! ## Claims on `GitCommitPush` -/

/-- C1 (fails on the code): a successful push does not end `GitCommitPush`.
The function never returns a nil error, whatever the environment answers; when
every command succeeds it is still running after any number of iterations,
having issued as many pushes and as many `pull --rebase` as iterations; and
after a successful first push the next command is a `pull --rebase`. -/
theorem GitCommitPush_push_success_not_returned :
    (∀ (w : World) (branch : String) (paths : List String) (message : String) (fuel : Nat)
        (h : Log), (GitCommitPush w branch paths message fuel h).1 ≠ some none) ∧
    (∀ fuel : Nat,
      (GitCommitPush allOk.world "main" [action, dockerfile] "Update action files" fuel []).1
        = none ∧
      (GitCommitPush allOk.world "main" [action, dockerfile] "Update action files" fuel []).2.countP
        isPushCmd = fuel ∧
      (GitCommitPush allOk.world "main" [action, dockerfile] "Update action files" fuel []).2.countP
        isPullCmd = fuel) ∧
    GitCommitPush allOk.world "main" [action, dockerfile] "Update action files" 1 [] =
      (none,
        [Event.git ["reset"] okOut,
          Event.git ["add", "action.yml", "Dockerfile"] okOut,
          Event.git ["commit", "-m", "Update action files"] okOut,
          Event.git ["push", "origin", "HEAD:main"] okOut,
          Event.git ["pull", "--rebase", "--autostash", "origin", "main"] okOut]) := by
  refine ⟨?_, ?_, by decide⟩
  · intro w branch paths message fuel h
    unfold GitCommitPush
    simp only [ToStdout, git]
    split
    · simp
    · split
      · simp
      · split
        · simp
        · exact pushLoop_ne_nil _ _ _ _ _
  · intro fuel
    have hprep : GitCommitPush allOk.world "main" [action, dockerfile] "Update action files"
        fuel [] = pushLoop allOk.world "main" fuel 1
          (logCommit allOk.world [action, dockerfile] "Update action files" []) :=
      GitCommitPush_prepared _ _ _ _ _ _ rfl rfl rfl
    rw [hprep]
    obtain ⟨h1, h2, h3⟩ := pushLoop_allOk "main" fuel 1
      (logCommit allOk.world [action, dockerfile] "Update action files" [])
    refine ⟨h1, ?_, ?_⟩
    · rw [h2]; simp [logCommit, logAdd, logReset, isPushCmd]
    · rw [h3]; simp [logCommit, logAdd, logReset, isPullCmd]

/-- C2 as stated fails: with reset, add and commit succeeding, every push
rejected and every rebase succeeding, the run has not returned after the
third rejection (three full iterations), and a fourth push is issued; the
exhaustion error comes with the fourth rejection. -/
theorem GitCommitPush_third_rejection_not_final :
    (contention.push 0).err = some "rejected" ∧
    (contention.push 1).err = some "rejected" ∧
    (contention.push 2).err = some "rejected" ∧
    (GitCommitPush contention.world "main" [action, dockerfile] "Update action files" 3 []).1
      = none ∧
    GitCommitPush contention.world "main" [action, dockerfile] "Update action files" 4 [] =
      (some (some "push failed 3 times: rejected"),
        [Event.git ["reset"] okOut,
          Event.git ["add", "action.yml", "Dockerfile"] okOut,
          Event.git ["commit", "-m", "Update action files"] okOut,
          Event.git ["push", "origin", "HEAD:main"] (failOut "rejected"),
          Event.git ["pull", "--rebase", "--autostash", "origin", "main"] okOut,
          Event.git ["push", "origin", "HEAD:main"] (failOut "rejected"),
          Event.git ["pull", "--rebase", "--autostash", "origin", "main"] okOut,
          Event.git ["push", "origin", "HEAD:main"] (failOut "rejected"),
          Event.git ["pull", "--rebase", "--autostash", "origin", "main"] okOut,
          Event.git ["push", "origin", "HEAD:main"] (failOut "rejected")]) := by
  decide

/-- C2, amended: with reset, add and commit succeeding, if the first four
(bound + 1) push attempts are all rejected and the three rebases between them
succeed, `GitCommitPush` returns the exhaustion error "push failed 3 times: ..."
on the fourth rejection; the log then holds exactly four pushes and three
pulls, so no fifth push is issued. -/
theorem GitCommitPush_exhausted_on_fourth_rejection (sc : Scenario) (branch : String)
    (paths : List String) (message : String) (fuel : Nat)
    (hreset : sc.reset.err = none) (hadd : sc.add.err = none) (hcommit : sc.commit.err = none)
    (hpush : ∀ k, k < 4 → (sc.push k).err ≠ none)
    (hpull : ∀ k, k < 3 → (sc.pull k).err = none)
    (hfuel : 4 ≤ fuel) :
    ∃ e : String, (sc.push 3).err = some e ∧
      (GitCommitPush sc.world branch paths message fuel []).1 =
        some (some ("push failed 3 times: " ++ e)) ∧
      (GitCommitPush sc.world branch paths message fuel []).2.countP isPushCmd = 4 ∧
      (GitCommitPush sc.world branch paths message fuel []).2.countP isPullCmd = 3 := by
  obtain ⟨n, rfl⟩ : ∃ n, fuel = n + 4 := ⟨fuel - 4, by omega⟩
  obtain ⟨e, he⟩ := Option.ne_none_iff_exists.mp (hpush 3 (by decide))
  have hprep : GitCommitPush sc.world branch paths message (n + 4) [] =
      pushLoop sc.world branch (n + 4) 1 (logCommit sc.world paths message []) :=
    GitCommitPush_prepared sc.world branch paths message (n + 4) [] hreset hadd hcommit
  have hc := countP_logCommit sc.world paths message []
  have hloop := pushLoop_fourth_rejection sc.world branch n
    (logCommit sc.world paths message []) e
    (by
      intro k hk
      rw [Scenario.exec_pull, (countP_logPush _ _ _).2, (countP_logRounds _ _ _ _).2, hc.2]
      simpa using hpull k hk)
    (by
      rw [Scenario.exec_push, (countP_logRounds _ _ _ _).1, hc.1]
      simpa using he.symm)
  refine ⟨e, he.symm, ?_, ?_, ?_⟩
  · rw [hprep, hloop]
  · rw [hprep, hloop, (countP_logPush _ _ _).1, (countP_logRounds _ _ _ _).1, hc.1]
    simp
  · rw [hprep, hloop, (countP_logPush _ _ _).2, (countP_logRounds _ _ _ _).2, hc.2]
    simp

/-- Under persistent contention the fourth rejection ends the run. -/
theorem GitCommitPush_exhausted_on_fourth_rejection_witness :
    ∃ e : String, (contention.push 3).err = some e ∧
      (GitCommitPush contention.world "main" [action, dockerfile] "Update action files" 4 []).1 =
        some (some ("push failed 3 times: " ++ e)) ∧
      (GitCommitPush contention.world "main" [action, dockerfile] "Update action files"
        4 []).2.countP isPushCmd = 4 ∧
      (GitCommitPush contention.world "main" [action, dockerfile] "Update action files"
        4 []).2.countP isPullCmd = 3 :=
  GitCommitPush_exhausted_on_fourth_rejection contention "main" [action, dockerfile]
    "Update action files" 4 rfl rfl rfl (fun _ _ => by simp [contention, failOut])
    (fun _ _ => rfl) (by decide)

/-- C3: whatever happened before, a `git pull` that fails is the last command
of the run (nothing follows it in the log) and `GitCommitPush` returns the
error "git pull rebase: " followed by the text of the failure. -/
theorem GitCommitPush_rebase_failure_final (w : World) (branch : String)
    (paths : List String) (message : String) (fuel : Nat) (h pre post : Log)
    (args : List String) (o : Out) (e : String)
    (hlog : (GitCommitPush w branch paths message fuel h).2 =
      h ++ pre ++ Event.git ("pull" :: args) o :: post)
    (herr : o.err = some e) :
    post = [] ∧
    (GitCommitPush w branch paths message fuel h).1 = some (some ("git pull rebase: " ++ e)) := by
  obtain ⟨new, hl, _, hfin⟩ := GitCommitPush_spec w branch paths message fuel h
  rw [hl, List.append_assoc] at hlog
  exact hfin pre post args o e (List.append_cancel_left hlog) herr

/-- A run in which the second rebase fails with "conflict". -/
theorem GitCommitPush_rebase_failure_final_witness :
    ([] : Log) = [] ∧
    (GitCommitPush rebaseFails.world "main" [action, dockerfile] "Update action files" 5 []).1 =
      some (some ("git pull rebase: " ++ "conflict")) :=
  GitCommitPush_rebase_failure_final rebaseFails.world "main" [action, dockerfile]
    "Update action files" 5 []
    [Event.git ["reset"] okOut,
      Event.git ["add", "action.yml", "Dockerfile"] okOut,
      Event.git ["commit", "-m", "Update action files"] okOut,
      Event.git ["push", "origin", "HEAD:main"] (failOut "rejected"),
      Event.git ["pull", "--rebase", "--autostash", "origin", "main"] okOut,
      Event.git ["push", "origin", "HEAD:main"] (failOut "rejected")]
    [] ["--rebase", "--autostash", "origin", "main"] (failOut "conflict") "conflict"
    (by decide) rfl

/-- C4: the preparatory commands are issued in the order `reset`,
`add <paths>`, `commit -m <message>` and each is fatal.  If `reset` fails the
run ends with "git reset: ..." and the log holds the reset only; if `add`
fails it ends with "git add: ..." after reset and add; if `commit` fails it
ends with "git commit: ..." after reset, add and commit; so no push is in the
log in these cases.  Whenever a push is among the commands of the run, reset,
add and commit succeeded and are the first three commands, in this order. -/
theorem GitCommitPush_preparation_fatal (w : World) (branch : String) (paths : List String)
    (message : String) (fuel : Nat) (h : Log) :
    (∀ e : String, (w.exec h ["reset"]).err = some e →
      GitCommitPush w branch paths message fuel h =
        (some (some ("git reset: " ++ e)), h ++ [Event.git ["reset"] (w.exec h ["reset"])])) ∧
    (∀ e : String, (w.exec h ["reset"]).err = none →
      (w.exec (logReset w h) ("add" :: paths)).err = some e →
      GitCommitPush w branch paths message fuel h =
        (some (some ("git add: " ++ e)),
          h ++ [Event.git ["reset"] (w.exec h ["reset"]),
            Event.git ("add" :: paths) (w.exec (logReset w h) ("add" :: paths))])) ∧
    (∀ e : String, (w.exec h ["reset"]).err = none →
      (w.exec (logReset w h) ("add" :: paths)).err = none →
      (w.exec (logAdd w paths h) ["commit", "-m", message]).err = some e →
      GitCommitPush w branch paths message fuel h =
        (some (some ("git commit: " ++ e)),
          h ++ [Event.git ["reset"] (w.exec h ["reset"]),
            Event.git ("add" :: paths) (w.exec (logReset w h) ("add" :: paths)),
            Event.git ["commit", "-m", message]
              (w.exec (logAdd w paths h) ["commit", "-m", message])])) ∧
    (∀ new : Log, (GitCommitPush w branch paths message fuel h).2 = h ++ new →
      (∃ ev ∈ new, isPushCmd ev = true) →
      (w.exec h ["reset"]).err = none ∧
      (w.exec (logReset w h) ("add" :: paths)).err = none ∧
      (w.exec (logAdd w paths h) ["commit", "-m", message]).err = none ∧
      ∃ rest : Log, new =
        [Event.git ["reset"] (w.exec h ["reset"]),
          Event.git ("add" :: paths) (w.exec (logReset w h) ("add" :: paths)),
          Event.git ["commit", "-m", message]
            (w.exec (logAdd w paths h) ["commit", "-m", message])] ++ rest ∧
        ∀ ev ∈ rest, isPushCmd ev = true ∨ isPullCmd ev = true) := by
  refine ⟨?_, ?_, ?_, ?_⟩
  · intro e h1
    rw [GitCommitPush_reset_fails w branch paths message fuel h e h1]
    rfl
  · intro e h1 h2
    rw [GitCommitPush_add_fails w branch paths message fuel h e h1 h2]
    simp [logAdd, logReset]
  · intro e h1 h2 h3
    rw [GitCommitPush_commit_fails w branch paths message fuel h e h1 h2 h3]
    simp [logCommit, logAdd, logReset]
  · intro new hnew hpush
    cases h1 : (w.exec h ["reset"]).err with
    | some e =>
      rw [GitCommitPush_reset_fails w branch paths message fuel h e h1] at hnew
      have hn := List.append_cancel_left hnew
      subst hn
      simp [isPushCmd] at hpush
    | none =>
      cases h2 : (w.exec (logReset w h) ("add" :: paths)).err with
      | some e =>
        rw [GitCommitPush_add_fails w branch paths message fuel h e h1 h2] at hnew
        simp only [logAdd, logReset, List.append_assoc] at hnew
        have hn := List.append_cancel_left hnew
        subst hn
        simp [isPushCmd] at hpush
      | none =>
        cases h3 : (w.exec (logAdd w paths h) ["commit", "-m", message]).err with
        | some e =>
          rw [GitCommitPush_commit_fails w branch paths message fuel h e h1 h2 h3] at hnew
          simp only [logCommit, logAdd, logReset, List.append_assoc] at hnew
          have hn := List.append_cancel_left hnew
          subst hn
          simp [isPushCmd] at hpush
        | none =>
          refine ⟨rfl, rfl, rfl, ?_⟩
          rw [GitCommitPush_prepared w branch paths message fuel h h1 h2 h3] at hnew
          obtain ⟨rest, hlog, hcmds, _⟩ :=
            pushLoop_spec w branch fuel 1 (logCommit w paths message h)
          rw [hlog] at hnew
          simp only [logCommit, logAdd, logReset, List.append_assoc] at hnew
          have hn := List.append_cancel_left hnew
          exact ⟨rest, by rw [← hn]; simp [logAdd, logReset], hcmds⟩

/-- Runs in which reset, add or commit fails, and one that reaches the pushes. -/
theorem GitCommitPush_preparation_fatal_witness :
    GitCommitPush (prepFails 0).world "main" [action, dockerfile] "Update action files" 5 [] =
      (some (some ("git reset: " ++ "no repository")),
        [] ++ [Event.git ["reset"] (failOut "no repository")]) ∧
    GitCommitPush (prepFails 1).world "main" [action, dockerfile] "Update action files" 5 [] =
      (some (some ("git add: " ++ "no such path")),
        [] ++ [Event.git ["reset"] okOut,
          Event.git ["add", "action.yml", "Dockerfile"] (failOut "no such path")]) ∧
    GitCommitPush (prepFails 2).world "main" [action, dockerfile] "Update action files" 5 [] =
      (some (some ("git commit: " ++ "nothing to commit")),
        [] ++ [Event.git ["reset"] okOut,
          Event.git ["add", "action.yml", "Dockerfile"] okOut,
          Event.git ["commit", "-m", "Update action files"] (failOut "nothing to commit")]) ∧
    (contention.world.exec [] ["reset"]).err = none :=
  ⟨(GitCommitPush_preparation_fatal (prepFails 0).world "main" [action, dockerfile]
      "Update action files" 5 []).1 "no repository" rfl,
    (GitCommitPush_preparation_fatal (prepFails 1).world "main" [action, dockerfile]
      "Update action files" 5 []).2.1 "no such path" rfl rfl,
    (GitCommitPush_preparation_fatal (prepFails 2).world "main" [action, dockerfile]
      "Update action files" 5 []).2.2.1 "nothing to commit" rfl rfl rfl,
    ((GitCommitPush_preparation_fatal contention.world "main" [action, dockerfile]
      "Update action files" 5 []).2.2.2
      [Event.git ["reset"] okOut,
        Event.git ["add", "action.yml", "Dockerfile"] okOut,
        Event.git ["commit", "-m", "Update action files"] okOut,
        Event.git ["push", "origin", "HEAD:main"] (failOut "rejected"),
        Event.git ["pull", "--rebase", "--autostash", "origin", "main"] okOut,
        Event.git ["push", "origin", "HEAD:main"] (failOut "rejected"),
        Event.git ["pull", "--rebase", "--autostash", "origin", "main"] okOut,
        Event.git ["push", "origin", "HEAD:main"] (failOut "rejected"),
        Event.git ["pull", "--rebase", "--autostash", "origin", "main"] okOut,
        Event.git ["push", "origin", "HEAD:main"] (failOut "rejected")]
      (by decide)
      ⟨Event.git ["push", "origin", "HEAD:main"] (failOut "rejected"), by decide, rfl⟩).1⟩

/-- C10: under persistent contention (reset, add and commit succeed, every
push is rejected, every `pull --rebase` succeeds) `GitCommitPush` terminates.
With fewer than four iterations of fuel it is still running, so the
exhaustion check does not fire on the first three rejections; with four or
more it returns "push failed 3 times: " followed by the error of the fourth
push, after exactly four pushes and three pulls, issued alternately after
reset, add and commit. -/
theorem GitCommitPush_persistent_contention (w : World) (branch : String)
    (paths : List String) (message : String) (h : Log)
    (hreset : ∀ l : Log, (w.exec l ["reset"]).err = none)
    (hadd : ∀ l : Log, (w.exec l ("add" :: paths)).err = none)
    (hcommit : ∀ l : Log, (w.exec l ["commit", "-m", message]).err = none)
    (hpush : ∀ l : Log, (w.exec l ["push", "origin", "HEAD:" ++ branch]).err ≠ none)
    (hpull : ∀ l : Log,
      (w.exec l ["pull", "--rebase", "--autostash", "origin", branch]).err = none) :
    (∀ fuel : Nat, fuel < 4 → ∃ new : Log,
      GitCommitPush w branch paths message fuel h = (none, h ++ new) ∧
      new.countP isPushCmd = fuel ∧ new.countP isPullCmd = fuel) ∧
    (∀ fuel : Nat, 4 ≤ fuel → ∃ (e : String) (new : Log),
      GitCommitPush w branch paths message fuel h =
        (some (some ("push failed 3 times: " ++ e)), h ++ new) ∧
      new.countP isPushCmd = 4 ∧ new.countP isPullCmd = 3 ∧
      issued new =
        [["reset"], "add" :: paths, ["commit", "-m", message],
          ["push", "origin", "HEAD:" ++ branch],
          ["pull", "--rebase", "--autostash", "origin", branch],
          ["push", "origin", "HEAD:" ++ branch],
          ["pull", "--rebase", "--autostash", "origin", branch],
          ["push", "origin", "HEAD:" ++ branch],
          ["pull", "--rebase", "--autostash", "origin", branch],
          ["push", "origin", "HEAD:" ++ branch]]) := by
  have hprep : ∀ fuel : Nat, GitCommitPush w branch paths message fuel h =
      pushLoop w branch fuel 1 (logCommit w paths message h) := fun fuel =>
    GitCommitPush_prepared w branch paths message fuel h (hreset _) (hadd _) (hcommit _)
  constructor
  · intro fuel hfuel
    rw [hprep, pushLoop_running w branch fuel _ hfuel (fun k _ => hpull _)]
    refine ⟨(logRounds w branch fuel (logCommit w paths message h)).drop h.length, ?_, ?_, ?_⟩
    · interval_cases fuel <;>
        simp [logRounds, logPull, logPush, logCommit, logAdd, logReset]
    · interval_cases fuel <;>
        simp [logRounds, logPull, logPush, logCommit, logAdd, logReset, isPushCmd]
    · interval_cases fuel <;>
        simp [logRounds, logPull, logPush, logCommit, logAdd, logReset, isPullCmd]
  · intro fuel hfuel
    obtain ⟨n, rfl⟩ : ∃ n, fuel = n + 4 := ⟨fuel - 4, by omega⟩
    obtain ⟨e, he⟩ := Option.ne_none_iff_exists.mp
      (hpush (logRounds w branch 3 (logCommit w paths message h)))
    refine ⟨e, (logPush w branch (logRounds w branch 3
      (logCommit w paths message h))).drop h.length, ?_, ?_, ?_, ?_⟩
    · rw [hprep, pushLoop_fourth_rejection w branch n _ e (fun k _ => hpull _) he.symm]
      simp [logRounds, logPull, logPush, logCommit, logAdd, logReset]
    · simp [logRounds, logPull, logPush, logCommit, logAdd, logReset, isPushCmd]
    · simp [logRounds, logPull, logPush, logCommit, logAdd, logReset, isPullCmd]
    · simp [issued, logRounds, logPull, logPush, logCommit, logAdd, logReset]

/-- The scripted contention environment, with more fuel than needed. -/
theorem GitCommitPush_persistent_contention_witness :
    ∃ (e : String) (new : Log),
      GitCommitPush contention.world "main" [action, dockerfile] "Update action files" 7 [] =
        (some (some ("push failed 3 times: " ++ e)), [] ++ new) ∧
      new.countP isPushCmd = 4 ∧ new.countP isPullCmd = 3 ∧
      issued new =
        [["reset"], "add" :: [action, dockerfile], ["commit", "-m", "Update action files"],
          ["push", "origin", "HEAD:" ++ "main"],
          ["pull", "--rebase", "--autostash", "origin", "main"],
          ["push", "origin", "HEAD:" ++ "main"],
          ["pull", "--rebase", "--autostash", "origin", "main"],
          ["push", "origin", "HEAD:" ++ "main"],
          ["pull", "--rebase", "--autostash", "origin", "main"],
          ["push", "origin", "HEAD:" ++ "main"]] :=
  (GitCommitPush_persistent_contention contention.world "main" [action, dockerfile]
    "Update action files" []
    (fun _ => rfl) (fun _ => rfl) (fun _ => rfl) (fun _ => by simp [contention, Scenario.world, failOut])
    (fun _ => rfl)).2 7 (by decide)

/-! ## Claims on `GitDiff` -/

theorem splitLines_flatten (cs : List Char) : (splitLines cs).flatten = cs := by
  induction cs with
  | nil => rfl
  | cons c cs ih =>
    unfold splitLines
    split
    · simp [ih]
    · split
      · rename_i heq
        rw [heq] at ih
        simp at ih
        simp [← ih]
      · rename_i l ls heq
        rw [heq] at ih
        simp at ih
        simp [← ih]

theorem GitDiff_add_fails (w : World) (path : String) (h : Log) (e : String)
    (hadd : (addOut w path h).err = some e) :
    GitDiff w path h =
      (("", some ("git add for " ++ path ++ ": " ++ e)),
        h ++ [Event.git ["add", path] (addOut w path h)] ++
          [Event.git ["reset", path]
            (w.exec (h ++ [Event.git ["add", path] (addOut w path h)]) ["reset", path])]) := by
  simp only [addOut] at hadd
  simp [GitDiff, ToStdout, git, hadd, addOut]

theorem GitDiff_add_ok (w : World) (path : String) (h : Log)
    (hadd : (addOut w path h).err = none) :
    GitDiff w path h =
      ((String.mk ((splitLines (diffOut w path h).stdout.data).drop 5).flatten,
          (diffOut w path h).err),
        h ++ [Event.git ["add", path] (addOut w path h)] ++
          [Event.git ["diff", "--staged", "--no-color", path] (diffOut w path h)] ++
          [Event.git ["reset", path]
            (w.exec (h ++ [Event.git ["add", path] (addOut w path h)] ++
              [Event.git ["diff", "--staged", "--no-color", path] (diffOut w path h)])
              ["reset", path])]) := by
  simp only [addOut] at hadd
  simp [GitDiff, ToStdout, ToString, Tail, git, hadd, addOut, diffOut]

theorem GitDiff_log (w : World) (path : String) (h : Log) :
    ∃ new : Log, (GitDiff w path h).2 = h ++ new ∧ ∀ ev ∈ new, isDiffStep ev = true := by
  cases hadd : (addOut w path h).err with
  | some e =>
    rw [GitDiff_add_fails w path h e hadd]
    exact ⟨[Event.git ["add", path] (addOut w path h), Event.git ["reset", path]
      (w.exec (h ++ [Event.git ["add", path] (addOut w path h)]) ["reset", path])],
      by simp, by simp [isDiffStep]⟩
  | none =>
    rw [GitDiff_add_ok w path h hadd]
    exact ⟨[Event.git ["add", path] (addOut w path h),
      Event.git ["diff", "--staged", "--no-color", path] (diffOut w path h),
      Event.git ["reset", path]
        (w.exec (h ++ [Event.git ["add", path] (addOut w path h)] ++
          [Event.git ["diff", "--staged", "--no-color", path] (diffOut w path h)])
          ["reset", path])], by simp, by simp [isDiffStep]⟩

/-- C5: whatever add and diff answer, the commands of `GitDiff(path)` are
`add`, possibly `diff`, and then `git reset <path>` exactly once as the last
one; and the returned pair (diff text, error) is the same in any two
environments that differ only in how reset commands end. -/
theorem GitDiff_reset_once_last (w : World) (path : String) (h : Log) :
    (∃ (pre : Log) (o : Out),
      (GitDiff w path h).2 = h ++ pre ++ [Event.git ["reset", path] o] ∧
      pre.countP isResetCmd = 0 ∧
      (issued pre = [["add", path]] ∨
        issued pre = [["add", path], ["diff", "--staged", "--no-color", path]])) ∧
    (∀ w2 : World,
      (∀ (l : Log) (args : List String), args.head? ≠ some "reset" →
        w2.exec l args = w.exec l args) →
      (GitDiff w2 path h).1 = (GitDiff w path h).1) := by
  constructor
  · cases hadd : (addOut w path h).err with
    | some e =>
      rw [GitDiff_add_fails w path h e hadd]
      exact ⟨[Event.git ["add", path] (addOut w path h)], _, rfl,
        by simp [isResetCmd], Or.inl (by simp [issued])⟩
    | none =>
      rw [GitDiff_add_ok w path h hadd]
      refine ⟨[Event.git ["add", path] (addOut w path h),
        Event.git ["diff", "--staged", "--no-color", path] (diffOut w path h)],
        w.exec (h ++ [Event.git ["add", path] (addOut w path h)] ++
              [Event.git ["diff", "--staged", "--no-color", path] (diffOut w path h)])
              ["reset", path], ?_,
        by simp [isResetCmd], Or.inr (by simp [issued])⟩
      simp
  · intro w2 hagree
    have ha : addOut w2 path h = addOut w path h := hagree h ["add", path] (by simp)
    have hd : diffOut w2 path h = diffOut w path h := by
      simp only [diffOut, ha]
      exact hagree _ _ (by simp)
    cases hadd : (addOut w path h).err with
    | some e =>
      rw [GitDiff_add_fails w path h e hadd, GitDiff_add_fails w2 path h e (by rw [ha]; exact hadd)]
    | none =>
      rw [GitDiff_add_ok w path h hadd, GitDiff_add_ok w2 path h (by rw [ha]; exact hadd), hd]

/-- A failing reset does not change what `GitDiff` returns. -/
theorem GitDiff_reset_once_last_witness :
    (GitDiff (diffWorld (failOut "index.lock exists")) "action.yml" []).1 =
      (GitDiff (diffWorld okOut) "action.yml" []).1 :=
  (GitDiff_reset_once_last (diffWorld okOut) "action.yml" []).2
    (diffWorld (failOut "index.lock exists"))
    (by
      intro l args hne
      simp only [diffWorld]
      split
      · rfl
      · simp at hne
      · rfl)

/-- C6: when add and the staged diff both succeed, `GitDiff(path)` returns,
with nil error, the output of `git diff --staged --no-color <path>` without
its first five lines: the output is its first five lines followed by the
returned text.  With five lines or fewer, and for an empty output in
particular, the returned diff is empty. -/
theorem GitDiff_drops_header (w : World) (path : String) (h : Log)
    (hadd : (addOut w path h).err = none) (hdiff : (diffOut w path h).err = none) :
    (GitDiff w path h).1 =
      (String.mk ((splitLines (diffOut w path h).stdout.data).drop 5).flatten, none) ∧
    ((splitLines (diffOut w path h).stdout.data).take 5).flatten ++ (GitDiff w path h).1.1.data =
      (diffOut w path h).stdout.data ∧
    ((splitLines (diffOut w path h).stdout.data).length ≤ 5 → (GitDiff w path h).1.1 = "") ∧
    ((diffOut w path h).stdout = "" → (GitDiff w path h).1.1 = "") := by
  rw [GitDiff_add_ok w path h hadd, hdiff]
  refine ⟨rfl, ?_, ?_, ?_⟩
  · show ((splitLines (diffOut w path h).stdout.data).take 5).flatten ++
        ((splitLines (diffOut w path h).stdout.data).drop 5).flatten = _
    rw [← List.flatten_append, List.take_append_drop, splitLines_flatten]
  · intro hlen
    show String.mk ((splitLines (diffOut w path h).stdout.data).drop 5).flatten = ""
    rw [List.drop_eq_nil_of_le hlen]
    rfl
  · intro hempty
    show String.mk ((splitLines (diffOut w path h).stdout.data).drop 5).flatten = ""
    rw [hempty]
    rfl

/-- A diff of seven lines: the two lines after the header are returned. -/
theorem GitDiff_drops_header_witness :
    (GitDiff (diffWorld okOut) "action.yml" []).1 = ("-old\n+new\n", none) :=
  (GitDiff_drops_header (diffWorld okOut) "action.yml" [] rfl rfl).1.trans (by decide)

/-! ## Claims on `main.go` -/

theorem String_append_eq_empty (a b : String) : a ++ b = "" ↔ a = "" ∧ b = "" := by
  constructor
  · intro hab
    have hd : (a ++ b).data = [] := by rw [hab]
    rw [String.data_append, List.append_eq_nil] at hd
    exact ⟨String.ext hd.1, String.ext hd.2⟩
  · rintro ⟨rfl, rfl⟩
    rfl

theorem block_eq_empty (path d : String) : block path d = "" ↔ d = "" := by
  unfold block
  split
  · rename_i hd
    simp [hd]
  · rename_i hd
    simp only [hd, iff_false]
    intro hb
    rw [String_append_eq_empty, String_append_eq_empty, String_append_eq_empty] at hb
    exact absurd hb.1.1.1 (by decide)

theorem gitDiffLoop_log (w : World) (paths : List String) :
    ∀ (diff : String) (h : Log), ∃ new : Log,
      (gitDiffLoop w paths diff h).2 = h ++ new ∧ ∀ ev ∈ new, isDiffStep ev = true := by
  induction paths with
  | nil => intro diff h; exact ⟨[], by simp [gitDiffLoop], by simp⟩
  | cons path rest ih =>
    intro diff h
    obtain ⟨new1, hl1, hs1⟩ := GitDiff_log w path h
    unfold gitDiffLoop
    split
    · rename_i d e h1 heq
      have : h1 = h ++ new1 := by rw [← hl1, heq]
      exact ⟨new1, this, hs1⟩
    · rename_i d h1 heq
      have hh : h1 = h ++ new1 := by rw [← hl1, heq]
      split
      · obtain ⟨new2, hl2, hs2⟩ := ih
          (diff ++ ("Path `" ++ path ++ "`:\n\n") ++ ("```diff\n" ++ d ++ "\n```\n\n")) h1
        refine ⟨new1 ++ new2, by rw [hl2, hh, List.append_assoc], ?_⟩
        intro ev hev
        rcases List.mem_append.mp hev with hm | hm
        · exact hs1 ev hm
        · exact hs2 ev hm
      · obtain ⟨new2, hl2, hs2⟩ := ih diff h1
        refine ⟨new1 ++ new2, by rw [hl2, hh, List.append_assoc], ?_⟩
        intro ev hev
        rcases List.mem_append.mp hev with hm | hm
        · exact hs1 ev hm
        · exact hs2 ev hm

theorem isDiffStep_not_invoked (new : Log) (hnew : ∀ ev ∈ new, isDiffStep ev = true) :
    invokedGitConfig new = false ∧ invokedGitCommitPush new = false ∧
      invokedPRComment new = false := by
  refine ⟨?_, ?_, ?_⟩
  · simp only [invokedGitConfig, List.any_eq_false]
    intro ev hev
    have := hnew ev hev
    unfold isDiffStep at this
    split at this <;> simp_all
  · simp only [invokedGitCommitPush, List.any_eq_false]
    intro ev hev
    have := hnew ev hev
    unfold isDiffStep at this
    split at this <;> simp_all
  · simp only [invokedPRComment, List.any_eq_false]
    intro ev hev
    have := hnew ev hev
    unfold isDiffStep at this
    split at this <;> simp_all [isComment]

theorem main_configured (w : World) (ctx : Ctx) (fuel : Nat) (h : Log) (diff : String)
    (hdiff : (gitDiff w h).1 = Except.ok diff) (hne : diff ≠ "")
    (hcfg : (GitConfig w "goaction" ctx.email (gitDiff w h).2).1 = none) :
    main w ctx fuel h =
      (exitStatus (dispatch w ctx diff fuel (configured w ctx h)).1,
        (dispatch w ctx diff fuel (configured w ctx h)).2) := by
  have e : gitDiff w h = (Except.ok diff, (gitDiff w h).2) := Prod.ext hdiff rfl
  have c : GitConfig w "goaction" ctx.email (gitDiff w h).2 = (none, configured w ctx h) :=
    Prod.ext hcfg rfl
  unfold main
  rw [e]
  simp only [hne, if_false]
  rw [c]

theorem push_log (w : World) (ctx : Ctx) (fuel : Nat) (h : Log) :
    ∃ new : Log, (push w ctx fuel h).2 = h ++ new ∧
      invokedGitCommitPush new = true ∧ invokedPRComment new = false := by
  obtain ⟨new, hl, hgit, _⟩ :=
    GitCommitPush_spec w ctx.branch [action, dockerfile] "Update action files" fuel h
  have hlog : (push w ctx fuel h).2 =
      (GitCommitPush w ctx.branch [action, dockerfile] "Update action files" fuel h).2 := by
    unfold push
    split <;> simp_all
  refine ⟨Event.git ["reset"] (w.exec h ["reset"]) :: new, by rw [hlog, hl], ?_, ?_⟩
  · simp [invokedGitCommitPush]
  · simp only [invokedPRComment, List.any_eq_false]
    intro ev hev
    rcases List.mem_cons.mp hev with hm | hm
    · subst hm; simp [isComment]
    · have := hgit ev hm
      cases ev <;> simp_all [isGit, isComment]

theorem pr_with_token (w : World) (ctx : Ctx) (diff : String) (h : Log)
    (hne : diff ≠ "") (htok : ctx.githubToken ≠ "") :
    pr w ctx diff h =
      (if (w.comment h ctx.githubToken "goaction" (commentBody diff)).isSome
        then Status.exit 1 else Status.returned,
        h ++ [Event.prComment ctx.githubToken "goaction" (commentBody diff)
          (w.comment h ctx.githubToken "goaction" (commentBody diff))]) := by
  unfold pr
  simp only [htok, hne, if_false, PRComment, commentBody]
  split
  · rename_i e h1 heq
    simp only [Prod.mk.injEq] at heq
    simp [heq.1, ← heq.2]
  · rename_i h1 heq
    simp only [Prod.mk.injEq] at heq
    simp [heq.1, ← heq.2]

/-- C9: when the diffs of `action.yml` and `Dockerfile` are computed without
error, the aggregate built by `gitDiff` is the block of `action.yml` followed
by the block of `Dockerfile`, a block being empty for an empty diff and the
label "Path `<path>`:" with the fenced diff otherwise; hence the aggregate is
empty exactly when both diffs are empty. -/
theorem gitDiff_aggregate (w : World) (h : Log) (d1 d2 : String)
    (h1 : (GitDiff w action h).1 = (d1, none))
    (h2 : (GitDiff w dockerfile (GitDiff w action h).2).1 = (d2, none)) :
    gitDiff w h =
      (Except.ok (block action d1 ++ block dockerfile d2),
        (GitDiff w dockerfile (GitDiff w action h).2).2) ∧
    (d1 ≠ "" → d2 ≠ "" →
      (gitDiff w h).1 = Except.ok
        ("Path `action.yml`:\n\n```diff\n" ++ d1 ++ "\n```\n\n" ++
          "Path `Dockerfile`:\n\n```diff\n" ++ d2 ++ "\n```\n\n")) ∧
    (block action d1 ++ block dockerfile d2 = "" ↔ d1 = "" ∧ d2 = "") := by
  have e1 : GitDiff w action h = ((d1, none), (GitDiff w action h).2) := Prod.ext h1 rfl
  have e2 : GitDiff w dockerfile (GitDiff w action h).2 =
      ((d2, none), (GitDiff w dockerfile (GitDiff w action h).2).2) := Prod.ext h2 rfl
  have hagg : gitDiff w h =
      (Except.ok (block action d1 ++ block dockerfile d2),
        (GitDiff w dockerfile (GitDiff w action h).2).2) := by
    unfold gitDiff gitDiffLoop
    rw [e1]
    simp only []
    unfold gitDiffLoop
    rw [e2]
    simp only []
    unfold gitDiffLoop
    by_cases hd1 : d1 = "" <;> by_cases hd2 : d2 = "" <;>
      simp [hd1, hd2, block, String.append_assoc]
  refine ⟨hagg, ?_, ?_⟩
  · intro hd1 hd2
    rw [hagg]
    simp only [block, hd1, hd2, action, dockerfile, if_false]
    refine congrArg Except.ok (String.ext ?_)
    simp only [String.data_append, List.append_assoc]
    rfl
  · rw [String_append_eq_empty, block_eq_empty, block_eq_empty]

/-- Only `action.yml` changed: the aggregate is its block alone. -/
theorem gitDiff_aggregate_witness :
    gitDiff actionChanged [] =
      (Except.ok (block action "-old\n+new\n" ++ block dockerfile ""),
        (GitDiff actionChanged dockerfile (GitDiff actionChanged action []).2).2) :=
  (gitDiff_aggregate actionChanged [] "-old\n+new\n" "" (by decide) (by decide)).1

/-- C7: when the aggregate diff is empty, `main` exits with status 0 right
after `gitDiff`, in every CI context: the log is the one `gitDiff` left, its
new calls are only the add, diff and reset commands of `GitDiff`, and none
of `GitConfig`, `GitCommitPush`, `PRComment` was called. -/
theorem main_no_change (w : World) (ctx : Ctx) (fuel : Nat) (h : Log)
    (hdiff : (gitDiff w h).1 = Except.ok "") :
    main w ctx fuel h = (some 0, (gitDiff w h).2) ∧
    ∃ new : Log, (main w ctx fuel h).2 = h ++ new ∧
      (∀ ev ∈ new, isDiffStep ev = true) ∧
      invokedGitConfig new = false ∧ invokedGitCommitPush new = false ∧
      invokedPRComment new = false := by
  have e : gitDiff w h = (Except.ok "", (gitDiff w h).2) := Prod.ext hdiff rfl
  have hmain : main w ctx fuel h = (some 0, (gitDiff w h).2) := by
    unfold main
    rw [e]
    simp
  obtain ⟨new, hl, hs⟩ := gitDiffLoop_log w [action, dockerfile] "" h
  refine ⟨hmain, new, ?_, hs, isDiffStep_not_invoked new hs⟩
  rw [hmain]
  exact hl

/-- Nothing changed, push trigger inside CI: exit status 0 after `gitDiff`. -/
theorem main_no_change_witness :
    main allOk.world pushCtx 5 [] = (some 0, (gitDiff allOk.world []).2) :=
  (main_no_change allOk.world pushCtx 5 [] rfl).1

/-- C8: with a non-empty aggregate diff and `GitConfig` succeeding, what
`main` does after the configuration is decided by the CI context.
`GitCommitPush` is called exactly when the trigger is a push inside CI, and
then `main` ends as `push` does; `PRComment` is called exactly when the
trigger is not a push, is a pull request and the token is non-empty, and then
the one new call is the comment with the diff in its body; in every other
case nothing more is called and the exit status is 0. -/
theorem main_dispatch (w : World) (ctx : Ctx) (fuel : Nat) (h : Log) (diff : String)
    (hdiff : (gitDiff w h).1 = Except.ok diff) (hne : diff ≠ "")
    (hcfg : (GitConfig w "goaction" ctx.email (gitDiff w h).2).1 = none) :
    ∃ new : Log, (main w ctx fuel h).2 = configured w ctx h ++ new ∧
      (invokedGitCommitPush new = true ↔ ctx.isPush = true ∧ ctx.ci = true) ∧
      (invokedPRComment new = true ↔
        ctx.isPush = false ∧ ctx.isPR = true ∧ ctx.githubToken ≠ "") ∧
      (ctx.isPush = true → ctx.ci = true →
        main w ctx fuel h =
          (exitStatus (push w ctx fuel (configured w ctx h)).1,
            (push w ctx fuel (configured w ctx h)).2)) ∧
      (ctx.isPush = false → ctx.isPR = true → ctx.githubToken ≠ "" →
        new = [Event.prComment ctx.githubToken "goaction" (commentBody diff)
          (w.comment (configured w ctx h) ctx.githubToken "goaction" (commentBody diff))]) ∧
      (¬(ctx.isPush = true ∧ ctx.ci = true) →
        ¬(ctx.isPush = false ∧ ctx.isPR = true ∧ ctx.githubToken ≠ "") →
        new = [] ∧ (main w ctx fuel h).1 = some 0) := by
  rw [main_configured w ctx fuel h diff hdiff hne hcfg]
  cases hp : ctx.isPush with
  | true =>
    cases hc : ctx.ci with
    | true =>
      have hd : dispatch w ctx diff fuel (configured w ctx h) =
          push w ctx fuel (configured w ctx h) := by simp [dispatch, hp, hc]
      obtain ⟨new, hl, hinv, hnc⟩ := push_log w ctx fuel (configured w ctx h)
      rw [hd]
      refine ⟨new, hl, by simp [hinv], by simp [hnc], fun _ _ => rfl, by simp, by simp⟩
    | false =>
      have hd : dispatch w ctx diff fuel (configured w ctx h) =
          (Status.returned, configured w ctx h) := by simp [dispatch, hp, hc]
      rw [hd]
      exact ⟨[], by simp, by simp [invokedGitCommitPush], by simp [invokedPRComment],
        by simp, by simp, fun _ _ => ⟨rfl, rfl⟩⟩
  | false =>
    cases hr : ctx.isPR with
    | true =>
      by_cases htok : ctx.githubToken = ""
      · have hd : dispatch w ctx diff fuel (configured w ctx h) =
            (Status.returned, configured w ctx h) := by simp [dispatch, hp, hr, pr, htok]
        rw [hd]
        exact ⟨[], by simp, by simp [invokedGitCommitPush], by simp [invokedPRComment, htok],
          by simp, by simp [htok], fun _ _ => ⟨rfl, rfl⟩⟩
      · have hd : dispatch w ctx diff fuel (configured w ctx h) =
            pr w ctx diff (configured w ctx h) := by simp [dispatch, hp, hr]
        rw [hd, pr_with_token w ctx diff (configured w ctx h) hne htok]
        exact ⟨[Event.prComment ctx.githubToken "goaction" (commentBody diff)
            (w.comment (configured w ctx h) ctx.githubToken "goaction" (commentBody diff))],
          rfl, by simp [invokedGitCommitPush], by simp [invokedPRComment, isComment, htok],
          by simp, fun _ _ _ => rfl, by simp [htok]⟩
    | false =>
      have hd : dispatch w ctx diff fuel (configured w ctx h) =
          (Status.returned, configured w ctx h) := by simp [dispatch, hp, hr]
      rw [hd]
      exact ⟨[], by simp, by simp [invokedGitCommitPush], by simp [invokedPRComment],
        by simp, by simp, fun _ _ => ⟨rfl, rfl⟩⟩

/-- A pull request run with a token: the comment is posted, nothing is pushed. -/
theorem main_dispatch_witness :
    ∃ new : Log,
      (main actionChanged reviewCtx 5 []).2 = configured actionChanged reviewCtx [] ++ new ∧
      invokedPRComment new = true ∧ ¬ invokedGitCommitPush new = true :=
  match main_dispatch actionChanged reviewCtx 5 []
      "Path `action.yml`:\n\n```diff\n-old\n+new\n\n```\n\n" rfl (by decide) rfl with
  | ⟨new, hl, hpush, hpr, _⟩ =>
    ⟨new, hl, hpr.mpr ⟨rfl, rfl, by decide⟩, fun hh => absurd (hpush.mp hh).1 (by decide)⟩

end Goaction
